import Mathlib

/-!
Verification development for the utilities module of an in-page
anti-fingerprinting layer (content-scope-scripts, src/utils.js).

The JavaScript source is shallowly embedded: pure functions become Lean
functions, module-level mutable state (the exemption lists and the debug
flag) is passed explicitly, machine-integer operations are written over
Nat and Int with explicit reductions modulo powers of two mirroring the
ECMAScript 32-bit coercions, and fallible code returns Except.  Platform
builtins that the module merely calls (the regular-expression engine,
call-stack capture, HMAC from the vendored sjcl library) are taken as
explicit function parameters or modelled from the design document, as
noted on each definition.
-/

/-- Errors thrown by the embedded JavaScript fragments. -/
inductive JsError where
  | typeError
  | syntaxError (pattern : String)
  | generic (msg : String)
deriving DecidableEq, Repr

/-- A compiled regular expression.  The matching behaviour of the platform
regex engine is not part of this module; a compiled regex is identified by
its source pattern and every theorem quantifies over an arbitrary matcher
`test : Regex -> String -> Bool`. -/
structure Regex where
  source : String
deriving DecidableEq, Repr

/-- Lookup in a JavaScript-object-like association list: the first binding
of the key wins (bindings are kept unique by `jsSet`). -/
def jsGet {β : Type} (l : List (String × β)) (k : String) : Option β :=
  match l with
  | [] => none
  | e :: rest => if e.1 = k then some e.2 else jsGet rest k

/-- Property assignment on a JavaScript-object-like association list:
an existing binding is replaced in place, a new key is appended, matching
the insertion-order key semantics of JS objects. -/
def jsSet {β : Type} (l : List (String × β)) (k : String) (v : β) : List (String × β) :=
  match l with
  | [] => [(k, v)]
  | e :: rest => if e.1 = k then (k, v) :: rest else e :: jsSet rest k v

/-- The module-level mutable state of utils.js: the `exemptionLists`
object and the `debug` flag. -/
structure UtilsState where
  exemptionLists : List (String × List Regex)
  debug : Bool
deriving DecidableEq, Repr

/-- The argument object consumed by `initStringExemptionLists`:
`stringExemptionLists` maps feature names to pattern strings, in the
key insertion order that a JS for-in loop observes. -/
structure InitArgs where
  debug : Bool
  stringExemptionLists : List (String × List String)
deriving DecidableEq, Repr

/-- ECMAScript ToUint32 of an integer value: the 32-bit pattern of its
residue modulo 2^32. -/
def toUint32 (a : Int) : Nat :=
  (a % (2 ^ 32 : Int)).toNat

/-- Reads a 32-bit pattern back as a signed two's-complement value, as
every ECMAScript bitwise operator does with its result. -/
def int32OfBits (u : Nat) : Int :=
  if u < 2 ^ 31 then (u : Int) else (u : Int) - 2 ^ 32

/-- ECMAScript `<<`: both operands are coerced to 32 bits, the shift count
is reduced modulo 32, and the result is read back as a signed 32-bit value. -/
def jsShl (a b : Int) : Int :=
  int32OfBits ((toUint32 a * 2 ^ (toUint32 b % 32)) % 2 ^ 32)

/-- ECMAScript `>>` (sign-propagating right shift): the top `k` bits of the
result repeat the sign bit of the 32-bit operand. -/
def jsShr (a b : Int) : Int :=
  int32OfBits
    (toUint32 a / 2 ^ (toUint32 b % 32) +
      if toUint32 a < 2 ^ 31 then 0 else 2 ^ 32 - 2 ^ (32 - toUint32 b % 32))

/-- ECMAScript `&` on 32-bit patterns. -/
def jsAnd (a b : Int) : Int :=
  int32OfBits (toUint32 a &&& toUint32 b)

/-- ECMAScript `|` on 32-bit patterns. -/
def jsOr (a b : Int) : Int :=
  int32OfBits (toUint32 a ||| toUint32 b)

/-- ECMAScript `^` on 32-bit patterns. -/
def jsXor (a b : Int) : Int :=
  int32OfBits (toUint32 a ^^^ toUint32 b)

/-- ECMAScript `~` (bitwise not) on 32-bit patterns. -/
def jsNot (a : Int) : Int :=
  int32OfBits (toUint32 a ^^^ (2 ^ 32 - 1))

/-- nextRandom from utils.js: the linear-feedback-shift-register step
`Math.abs((v >> 1) | (((v << 62) ^ (v << 61)) & (~(~0 << 63) << 62)))`,
with every bitwise operator carrying its ECMAScript 32-bit semantics. -/
def nextRandom (v : Int) : Int :=
  ((jsOr (jsShr v 1)
      (jsAnd (jsXor (jsShl v 62) (jsShl v 61))
        (jsShl (jsNot (jsShl (jsNot 0) 63)) 62))).natAbs : Int)

/-- Closed arithmetic form of `nextRandom` on natural inputs: the operand
is cut to its low 32 bits, the effective shifts are 30 and 29 (62 and 61
reduced modulo 32), the mask constant is 0xC0000000, and the final
absolute value folds the two's-complement reading back to a natural. -/
def nextRandomArith32 (v : Nat) : Nat :=
  let u := v % 2 ^ 32
  let shr := if u < 2 ^ 31 then u / 2 else u / 2 + 2 ^ 31
  let x := ((u * 2 ^ 30) % 2 ^ 32) ^^^ ((u * 2 ^ 29) % 2 ^ 32)
  let m := shr ||| (x &&& 0xC0000000)
  if m < 2 ^ 31 then m else 2 ^ 32 - m

/-- Modelled from the spec: the design document describes the perturbation
step in 63-bit-wide arithmetic, `next = (v >> 1) | (((v << 62) ^ (v << 61)) & mask)`
with every shift and the mask taken modulo 2^63 so that the mask
`~(~0 << 63) << 62` isolates bit 62.  This definition follows those words,
for comparison against the embedded `nextRandom`. -/
def nextRandomSpec63 (v : Nat) : Nat :=
  (v / 2) ||| ((((v * 2 ^ 62) % 2 ^ 63) ^^^ ((v * 2 ^ 61) % 2 ^ 63)) &&& 2 ^ 62)

/-- Inner loop of `initStringExemptionLists` over one feature's pattern
strings: each pattern is compiled (`new RegExp(stringExemption)`) and
pushed onto the feature's array.  The platform compiler is the parameter
`compile`; a compilation error aborts the push loop with the regexes
pushed so far still in the array, and the error is reported for the
caller to rethrow. -/
def compilePatterns (compile : String → Except JsError Regex) :
    List String → List Regex → List Regex × Option JsError
  | [], acc => (acc, none)
  | p :: ps, acc =>
    match compile p with
    | .error e => (acc, some e)
    | .ok r => compilePatterns compile ps (acc ++ [r])

/-- Outer for-in loop of `initStringExemptionLists`: for each feature in
the supplied mapping, `exemptionLists[type]` is assigned the compiled
array.  A regex compilation error propagates out of the loop, leaving the
assignments made so far (including the partially filled failing entry) in
the state. -/
def initLoop (compile : String → Except JsError Regex) :
    List (String × List String) → UtilsState → UtilsState × Except JsError Unit
  | [], st => (st, .ok ())
  | (t, ps) :: rest, st =>
    let pair := compilePatterns compile ps []
    let st2 : UtilsState :=
      { st with exemptionLists := jsSet st.exemptionLists t pair.1 }
    match pair.2 with
    | some e => (st2, .error e)
    | none => initLoop compile rest st2

/-- initStringExemptionLists from utils.js: sets the module-level `debug`
flag from the arguments, then runs the compilation loop over the supplied
`stringExemptionLists` mapping, mutating `exemptionLists`. -/
def initStringExemptionLists (compile : String → Except JsError Regex)
    (args : InitArgs) (st : UtilsState) : UtilsState × Except JsError Unit :=
  initLoop compile args.stringExemptionLists { st with debug := args.debug }

/-- shouldExemptUrl from utils.js: iterates `exemptionLists[type]` with a
for-of loop, returning true at the first regex whose `test` accepts the
url.  When `type` has no entry the lookup yields `undefined`, and a for-of
loop over `undefined` throws a TypeError, which this embedding returns as
`Except.error`. -/
def shouldExemptUrl (test : Regex → String → Bool)
    (lists : List (String × List Regex)) (type url : String) :
    Except JsError Bool :=
  match jsGet lists type with
  | none => .error JsError.typeError
  | some regexes => .ok (regexes.any (fun r => test r url))

/-- Scan loop inside the try block of `shouldExemptMethod`: walks the
captured stack lines, extracts the URL of each frame with the platform
regex `lineTest` (parameter `matchLine`, returning capture group 2, and
`Except.error` when the platform match itself throws), skips URLs already
seen, and returns true at the first URL that `shouldExemptUrl` accepts.
An unseen URL that is not exempt is appended to the seen set afterwards. -/
def scanLines (test : Regex → String → Bool)
    (lists : List (String × List Regex)) (type : String)
    (matchLine : String → Except JsError (Option String)) :
    List String → List String → Except JsError Bool
  | [], _seen => .ok false
  | line :: rest, seen =>
    match matchLine line with
    | .error e => .error e
    | .ok none => scanLines test lists type matchLine rest seen
    | .ok (some path) =>
      if path ∈ seen then scanLines test lists type matchLine rest seen
      else
        match shouldExemptUrl test lists type path with
        | .error e => .error e
        | .ok true => .ok true
        | .ok false => scanLines test lists type matchLine rest (seen ++ [path])

/-- shouldExemptMethod from utils.js: short-circuits to false when `type`
has no entry or an empty entry in `exemptionLists`; otherwise captures the
call stack (`stack` is the platform capture, already split into lines,
with `Except.error` standing for a capture failure) and scans it inside a
try block whose catch clause falls through to `return false`. -/
def shouldExemptMethod (test : Regex → String → Bool)
    (stack : Except JsError (List String))
    (matchLine : String → Except JsError (Option String))
    (lists : List (String × List Regex)) (type : String) : Bool :=
  match jsGet lists type with
  | none => false
  | some l =>
    if l.length = 0 then false
    else
      match stack with
      | .error _ => false
      | .ok lines =>
        match scanLines test lists type matchLine lines [] with
        | .error _ => false
        | .ok b => b

/-- Inner loop of `iterateDataKey` over bit positions j = 8 down to 0 for
one character: invokes the callback (stateful, with state `s` standing
for its side effects; a `none` result is the JS `null` STOP sentinel),
then advances `item` through `nextRandom` and right-shifts `byte`.  The
Nat component counts callback invocations, making the observable call
count explicit; the Bool component records whether STOP was signalled. -/
def runBits {σ : Type} (f : σ → Int → Nat → σ × Option Unit) :
    Nat → σ → Nat → Int → Nat → σ × Nat × Int × Bool
  | 0, s, cnt, item, _byte => (s, cnt, item, false)
  | j + 1, s, cnt, item, byte =>
    let p := f s item byte
    match p.2 with
    | none => (p.1, cnt + 1, item, true)
    | some _ => runBits f j p.1 (cnt + 1) (nextRandom item) (byte / 2)

/-- Outer for-in loop of `iterateDataKey` over the characters of the key:
`item` persists across characters, and a STOP from the inner loop returns
immediately without visiting further characters. -/
def runKey {σ : Type} (f : σ → Int → Nat → σ × Option Unit) :
    List Nat → σ → Nat → Int → σ × Nat
  | [], s, cnt, _item => (s, cnt)
  | b :: rest, s, cnt, item =>
    let r := runBits f 9 s cnt item b
    if r.2.2.2 then (r.1, r.2.1) else runKey f rest r.1 r.2.1 r.2.2.1

/-- iterateDataKey from utils.js.  The key is the list of its UTF-16 code
units (`charCodeAt` values); `item` starts at the first code unit.  On the
empty key `charCodeAt(0)` yields NaN, but the for-in loop body never runs,
so the NaN is never consumed and the function returns at once; the
embedding returns the untouched callback state and a zero invocation
count. -/
def iterateDataKey {σ : Type} (key : List Nat)
    (f : σ → Int → Nat → σ × Option Unit) (s : σ) : σ × Nat :=
  match key with
  | [] => (s, 0)
  | c :: _ => runKey f key s 0 (c : Int)

/-- The lowercase hexadecimal digit character for a nibble value: digits
0-9 map to code points 48-57, values 10-15 to the lowercase letters at
code points 97-102. -/
def hexDigit (n : Nat) : Char :=
  if n < 10 then Char.ofNat (48 + n) else Char.ofNat (87 + n)

/-- The sixteen lowercase hexadecimal digits, in value order. -/
def hexDigitChars : List Char :=
  (List.range 16).map hexDigit

/-- Hex characters of one 32-bit word, most significant nibble first. -/
def wordHexChars (w : Nat) : List Char :=
  (List.range 8).map (fun i => hexDigit (w / 16 ^ (7 - i) % 16))

/-- Modelled from the spec: `sjcl.codec.hex.fromBits` lives in the
vendored sjcl library, which is outside the provided sources.  The design
document says the digest is returned hex-encoded, lowercase and
fixed-length, 64 hex characters for a 256-bit output; this encodes each
32-bit word of the bit array as 8 lowercase hex digits. -/
def hexFromBits (ws : List Nat) : String :=
  String.mk ((ws.map wordHexChars).flatten)

/-- getDataKeySync from utils.js: builds an HMAC keyed by the
concatenation `sessionKey + domainKey` over SHA-256, encrypts the numeric
input, and hex-encodes the resulting bit array.  The HMAC itself is
sjcl-library code outside the provided sources, so it enters as the
parameter `hmac`, mapping the key material string and the numeric input
to the digest's list of 32-bit words. -/
def getDataKeySync (hmac : String → Int → List Nat)
    (sessionKey domainKey : String) (inputData : Int) : String :=
  hexFromBits (hmac (sessionKey ++ domainKey) inputData)

/-- JavaScript values as far as `overrideProperty` distinguishes them:
the strict equality `origValue === undefined` is the only inspection it
performs. -/
inductive JSValue where
  | undefined
  | null
  | bool (b : Bool)
  | num (n : Int)
  | str (s : String)
deriving DecidableEq, Repr

/-- A property slot installed on an object: `overrideProperty` installs
accessor descriptors whose getter returns a fixed value. -/
inductive Descriptor where
  | getter (value : JSValue)
deriving DecidableEq, Repr

/-- defineProperty from utils.js, standard branch (the Firefox
xray-boundary branch crosses into host-specific bridging that the design
document leaves out of scope).  `Object.defineProperty` throws a
TypeError on a non-configurable property; the parameter `configurableOk`
is that host-side outcome. -/
def defineProperty (configurableOk : Bool)
    (obj : List (String × Descriptor)) (name : String) (d : Descriptor) :
    Except JsError (List (String × Descriptor)) :=
  if configurableOk then .ok (jsSet obj name d) else .error JsError.typeError

/-- overrideProperty from utils.js: unless `origValue` is strictly
`undefined`, installs a getter returning `targetValue` (swallowing any
defineProperty failure), and always returns `origValue`. -/
def overrideProperty (configurableOk : Bool) (name : String)
    (obj : List (String × Descriptor)) (origValue targetValue : JSValue) :
    List (String × Descriptor) × JSValue :=
  if origValue = JSValue.undefined then (obj, origValue)
  else
    match defineProperty configurableOk obj name (Descriptor.getter targetValue) with
    | .ok obj2 => (obj2, origValue)
    | .error _ => (obj, origValue)

/-- The structured debug record built by the DDGProxy output handler. -/
structure DebugMessage where
  action : String
  kind : String
  documentUrl : String
  stack : String
  args : String
deriving DecidableEq, Repr

/-- postDebugMessage from utils.js: wraps the feature name and record into
the payload posted to the page; the embedding returns the payload that
`globalObj.postMessage` would receive. -/
def postDebugMessage (feature : String) (message : DebugMessage) :
    String × DebugMessage :=
  (feature, message)

/-- The outputHandler closure created in the DDGProxy constructor: asks
`shouldExemptMethod` for this feature, posts a debug record when the
debug flag is set, then forwards the call to the native callable
(`DDGReflect.apply`) when exempt and to the substitute
(`proxyObject.apply`) otherwise.  Callables are state transformers
`α → σ → σ × ρ` so that which one ran is observable; the handler returns
the forwarded call's state and result together with the posted debug
payloads. -/
def outputHandler {α σ ρ : Type} (test : Regex → String → Bool)
    (stack : Except JsError (List String))
    (matchLine : String → Except JsError (Option String))
    (lists : List (String × List Regex)) (debug : Bool)
    (camelFeatureName property docHref rawStack argsStr : String)
    (native substitute : α → σ → σ × ρ) (args : α) (s : σ) :
    (σ × ρ) × List (String × DebugMessage) :=
  let isExempt := shouldExemptMethod test stack matchLine lists camelFeatureName
  let posted :=
    if debug then
      [postDebugMessage camelFeatureName
        ⟨if isExempt then "ignore" else "restrict",
          property, docHref, rawStack, argsStr⟩]
    else []
  if isExempt then (native args s, posted) else (substitute args s, posted)

deriving instance DecidableEq for Except

/-! Helper lemmas about the association-list object model. -/

theorem jsGet_jsSet_self {β : Type} (l : List (String × β)) (k : String) (v : β) :
    jsGet (jsSet l k v) k = some v := by
  induction l with
  | nil => simp [jsGet, jsSet]
  | cons e rest ih =>
    by_cases h : e.1 = k
    · simp [jsGet, jsSet, h]
    · simp [jsGet, jsSet, h, ih]

theorem jsGet_jsSet_ne {β : Type} (l : List (String × β)) (k k2 : String) (v : β)
    (h : k ≠ k2) : jsGet (jsSet l k v) k2 = jsGet l k2 := by
  induction l with
  | nil => simp [jsGet, jsSet, h]
  | cons e rest ih =>
    by_cases he : e.1 = k
    · simp [jsGet, jsSet, he, h]
    · simp only [jsSet, if_neg he]
      by_cases he2 : e.1 = k2
      · simp [jsGet, he2]
      · simp [jsGet, he2, ih]

/-! Helper lemmas about the configuration loop. -/

theorem compilePatterns_ok (compile : String → Except JsError Regex)
    (w : String → Regex) :
    ∀ (ps : List String) (acc : List Regex),
      (∀ p ∈ ps, compile p = .ok (w p)) →
      compilePatterns compile ps acc = (acc ++ ps.map w, none) := by
  intro ps
  induction ps with
  | nil => intro acc _; simp [compilePatterns]
  | cons p ps ih =>
    intro acc h
    simp only [compilePatterns]
    rw [h p (by simp)]
    show compilePatterns compile ps (acc ++ [w p]) = _
    rw [ih (acc ++ [w p]) (fun q hq => h q (by simp [hq]))]
    simp

theorem compilePatterns_fail (compile : String → Except JsError Regex)
    (w : String → Regex) (bad : String) (e : JsError) (ps2 : List String)
    (hbad : compile bad = .error e) :
    ∀ (ps1 : List String) (acc : List Regex),
      (∀ p ∈ ps1, compile p = .ok (w p)) →
      compilePatterns compile (ps1 ++ bad :: ps2) acc = (acc ++ ps1.map w, some e) := by
  intro ps1
  induction ps1 with
  | nil => intro acc _; simp [compilePatterns, hbad]
  | cons p ps ih =>
    intro acc h
    simp only [List.cons_append, compilePatterns]
    rw [h p (by simp)]
    show compilePatterns compile (ps ++ bad :: ps2) (acc ++ [w p]) = _
    rw [ih (acc ++ [w p]) (fun q hq => h q (by simp [hq]))]
    simp

theorem initLoop_get_ne (compile : String → Except JsError Regex) (t : String) :
    ∀ (list : List (String × List String)) (st : UtilsState),
      (∀ e ∈ list, e.1 ≠ t) →
      jsGet ((initLoop compile list st).1).exemptionLists t =
        jsGet st.exemptionLists t := by
  intro list
  induction list with
  | nil => intro st _; rfl
  | cons q rest ih =>
    intro st h
    obtain ⟨qn, qps⟩ := q
    have hq : qn ≠ t := h (qn, qps) (by simp)
    simp only [initLoop]
    cases hp : (compilePatterns compile qps []).2 with
    | some e => simp [jsGet_jsSet_ne _ _ _ _ hq]
    | none =>
      simp only []
      rw [ih _ (fun e he => h e (by simp [he]))]
      simp [jsGet_jsSet_ne _ _ _ _ hq]

/-! Helper lemmas about the key iteration loops. -/

theorem runBits_count_noStop {σ : Type} (f : σ → Int → Nat → σ × Option Unit)
    (hf : ∀ t i b, (f t i b).2 = some ()) :
    ∀ (j : Nat) (s : σ) (cnt : Nat) (item : Int) (byte : Nat),
      (runBits f j s cnt item byte).2.1 = cnt + j ∧
      (runBits f j s cnt item byte).2.2.2 = false := by
  intro j
  induction j with
  | zero => intro s cnt item byte; simp [runBits]
  | succ j ih =>
    intro s cnt item byte
    have hrec := ih (f s item byte).1 (cnt + 1) (nextRandom item) (byte / 2)
    simp only [runBits, hf]
    constructor
    · rw [hrec.1]; omega
    · exact hrec.2

theorem runKey_count_noStop {σ : Type} (f : σ → Int → Nat → σ × Option Unit)
    (hf : ∀ t i b, (f t i b).2 = some ()) :
    ∀ (l : List Nat) (s : σ) (cnt : Nat) (item : Int),
      (runKey f l s cnt item).2 = cnt + 9 * l.length := by
  intro l
  induction l with
  | nil => intro s cnt item; simp [runKey]
  | cons b rest ih =>
    intro s cnt item
    have h9 := runBits_count_noStop f hf 9 s cnt item b
    simp only [runKey]
    rw [h9.2]
    simp only [Bool.false_eq_true, if_false]
    rw [ih, h9.1]
    simp [List.length_cons]
    omega

theorem runBits_count_ordinal (g : Nat → Option Unit) (k : Nat)
    (hg1 : ∀ m, 0 < m → m < k → g m = some ()) (hg2 : g k = none) :
    ∀ (j cnt : Nat) (item : Int) (byte : Nat), cnt < k →
      (runBits (fun c _ _ => (c + 1, g (c + 1))) j cnt cnt item byte).1 =
          min (cnt + j) k ∧
      (runBits (fun c _ _ => (c + 1, g (c + 1))) j cnt cnt item byte).2.1 =
          min (cnt + j) k ∧
      (runBits (fun c _ _ => (c + 1, g (c + 1))) j cnt cnt item byte).2.2.2 =
          decide (k ≤ cnt + j) := by
  intro j
  induction j with
  | zero =>
    intro cnt item byte hlt
    refine ⟨by simp [runBits]; omega, by simp [runBits]; omega, ?_⟩
    rw [decide_eq_false (by omega)]
    simp [runBits]
  | succ j ih =>
    intro cnt item byte hlt
    simp only [runBits]
    by_cases hk : cnt + 1 = k
    · rw [hk, hg2]
      refine ⟨by simp; omega, by simp; omega, ?_⟩
      rw [decide_eq_true (by omega)]
    · rw [hg1 (cnt + 1) (by omega) (by omega)]
      have hrec := ih (cnt + 1) (nextRandom item) (byte / 2) (by omega)
      have harith : cnt + 1 + j = cnt + (j + 1) := by omega
      rw [harith] at hrec
      exact hrec

theorem runKey_count_ordinal (g : Nat → Option Unit) (k : Nat)
    (hg1 : ∀ m, 0 < m → m < k → g m = some ()) (hg2 : g k = none) :
    ∀ (l : List Nat) (cnt : Nat) (item : Int), cnt < k →
      (runKey (fun c _ _ => (c + 1, g (c + 1))) l cnt cnt item).2 =
        min (cnt + 9 * l.length) k := by
  intro l
  induction l with
  | nil => intro cnt item hlt; simp [runKey]; omega
  | cons b rest ih =>
    intro cnt item hlt
    obtain ⟨hs, hc, hflag⟩ := runBits_count_ordinal g k hg1 hg2 9 cnt item b hlt
    simp only [runKey]
    rw [hflag]
    by_cases hk9 : k ≤ cnt + 9
    · rw [decide_eq_true hk9]
      simp only [if_true]
      rw [hc]
      simp [List.length_cons]
      omega
    · rw [decide_eq_false hk9]
      simp only [Bool.false_eq_true, if_false]
      rw [hs, hc]
      have hmin : min (cnt + 9) k = cnt + 9 := by omega
      rw [hmin]
      rw [ih (cnt + 9) _ (by omega)]
      have : cnt + 9 + 9 * rest.length = cnt + 9 * (b :: rest).length := by
        simp [List.length_cons]; omega
      rw [this]

/-! Helper lemmas about the 32-bit coercions inside nextRandom. -/

theorem toUint32_natCast (v : Nat) : toUint32 (v : Int) = v % 2 ^ 32 := by
  simp only [toUint32]
  omega

theorem toUint32_int32OfBits (u : Nat) (h : u < 2 ^ 32) :
    toUint32 (int32OfBits u) = u := by
  simp only [toUint32, int32OfBits]
  split <;> omega

theorem natAbs_int32OfBits (u : Nat) (h : u < 2 ^ 32) :
    (int32OfBits u).natAbs = if u < 2 ^ 31 then u else 2 ^ 32 - u := by
  simp only [int32OfBits]
  split <;> omega

theorem lor_lt_32 {x y : Nat} (hx : x < 2 ^ 32) (hy : y < 2 ^ 32) :
    x ||| y < 2 ^ 32 :=
  Nat.bitwise_lt hx hy

theorem xor_lt_32 {x y : Nat} (hx : x < 2 ^ 32) (hy : y < 2 ^ 32) :
    x ^^^ y < 2 ^ 32 :=
  Nat.bitwise_lt hx hy

theorem and_lt_32 {x y : Nat} (hx : x < 2 ^ 32) (hy : y < 2 ^ 32) :
    x &&& y < 2 ^ 32 :=
  Nat.bitwise_lt hx hy

theorem nextRandom_eq_arith (v : Nat) :
    nextRandom (v : Int) = (nextRandomArith32 v : Int) := by
  have hu : toUint32 (v : Int) = v % 2 ^ 32 := toUint32_natCast v
  have hult : v % 2 ^ 32 < 2 ^ 32 := Nat.mod_lt _ (by norm_num)
  have hc62 : toUint32 (62 : Int) % 32 = 30 := by decide
  have hc61 : toUint32 (61 : Int) % 32 = 29 := by decide
  have hc1 : toUint32 (1 : Int) % 32 = 1 := by decide
  have hb30 : (v % 2 ^ 32 * 2 ^ 30) % 2 ^ 32 < 2 ^ 32 := Nat.mod_lt _ (by norm_num)
  have hb29 : (v % 2 ^ 32 * 2 ^ 29) % 2 ^ 32 < 2 ^ 32 := Nat.mod_lt _ (by norm_num)
  have hshl62 : jsShl (v : Int) 62 = int32OfBits ((v % 2 ^ 32 * 2 ^ 30) % 2 ^ 32) := by
    simp only [jsShl, hu, hc62]
  have hshl61 : jsShl (v : Int) 61 = int32OfBits ((v % 2 ^ 32 * 2 ^ 29) % 2 ^ 32) := by
    simp only [jsShl, hu, hc61]
  have hxor : jsXor (jsShl (v : Int) 62) (jsShl (v : Int) 61) =
      int32OfBits (((v % 2 ^ 32 * 2 ^ 30) % 2 ^ 32) ^^^ ((v % 2 ^ 32 * 2 ^ 29) % 2 ^ 32)) := by
    rw [hshl62, hshl61]
    simp only [jsXor]
    rw [toUint32_int32OfBits _ hb30, toUint32_int32OfBits _ hb29]
  have hmask : jsShl (jsNot (jsShl (jsNot 0) 63)) 62 = int32OfBits 3221225472 := by decide
  have hxlt : ((v % 2 ^ 32 * 2 ^ 30) % 2 ^ 32) ^^^ ((v % 2 ^ 32 * 2 ^ 29) % 2 ^ 32) < 2 ^ 32 :=
    xor_lt_32 hb30 hb29
  have hand : jsAnd (jsXor (jsShl (v : Int) 62) (jsShl (v : Int) 61))
        (jsShl (jsNot (jsShl (jsNot 0) 63)) 62) =
      int32OfBits ((((v % 2 ^ 32 * 2 ^ 30) % 2 ^ 32) ^^^ ((v % 2 ^ 32 * 2 ^ 29) % 2 ^ 32)) &&&
        3221225472) := by
    rw [hxor, hmask]
    simp only [jsAnd]
    rw [toUint32_int32OfBits _ hxlt, toUint32_int32OfBits _ (by norm_num)]
  have hshr : jsShr (v : Int) 1 =
      int32OfBits (if v % 2 ^ 32 < 2 ^ 31 then v % 2 ^ 32 / 2 else v % 2 ^ 32 / 2 + 2 ^ 31) := by
    simp only [jsShr, hu, hc1]
    congr 1
    split <;> omega
  have hslt : (if v % 2 ^ 32 < 2 ^ 31 then v % 2 ^ 32 / 2 else v % 2 ^ 32 / 2 + 2 ^ 31) < 2 ^ 32 := by
    split <;> omega
  have halt : (((v % 2 ^ 32 * 2 ^ 30) % 2 ^ 32) ^^^ ((v % 2 ^ 32 * 2 ^ 29) % 2 ^ 32)) &&&
      3221225472 < 2 ^ 32 := and_lt_32 hxlt (by norm_num)
  have hor : jsOr (jsShr (v : Int) 1)
        (jsAnd (jsXor (jsShl (v : Int) 62) (jsShl (v : Int) 61))
          (jsShl (jsNot (jsShl (jsNot 0) 63)) 62)) =
      int32OfBits
        ((if v % 2 ^ 32 < 2 ^ 31 then v % 2 ^ 32 / 2 else v % 2 ^ 32 / 2 + 2 ^ 31) |||
          ((((v % 2 ^ 32 * 2 ^ 30) % 2 ^ 32) ^^^ ((v % 2 ^ 32 * 2 ^ 29) % 2 ^ 32)) &&&
            3221225472)) := by
    rw [hshr, hand]
    simp only [jsOr]
    rw [toUint32_int32OfBits _ hslt, toUint32_int32OfBits _ halt]
  simp only [nextRandom]
  rw [hor]
  rw [natAbs_int32OfBits _ (lor_lt_32 hslt halt)]
  rfl

/-! Helper lemmas about the hex encoding. -/

theorem wordHexChars_length (w : Nat) : (wordHexChars w).length = 8 := by
  simp [wordHexChars]

theorem hexFromBits_length (ws : List Nat) :
    (hexFromBits ws).length = 8 * ws.length := by
  show ((ws.map wordHexChars).flatten).length = 8 * ws.length
  induction ws with
  | nil => rfl
  | cons w ws ih =>
    simp only [List.map_cons, List.flatten_cons, List.length_append, ih,
      wordHexChars_length, List.length_cons]
    omega

theorem hexDigit_mem (n : Nat) (h : n < 16) : hexDigit n ∈ hexDigitChars := by
  have hall : ∀ m, m < 16 → hexDigit m ∈ hexDigitChars := by decide
  exact hall n h

theorem hexFromBits_mem (ws : List Nat) (c : Char)
    (hc : c ∈ (hexFromBits ws).data) : c ∈ hexDigitChars := by
  have hc2 : c ∈ (ws.map wordHexChars).flatten := hc
  rw [List.mem_flatten] at hc2
  obtain ⟨l, hl, hcl⟩ := hc2
  rw [List.mem_map] at hl
  obtain ⟨w, _, rfl⟩ := hl
  simp only [wordHexChars, List.mem_map] at hcl
  obtain ⟨i, _, rfl⟩ := hcl
  exact hexDigit_mem _ (Nat.mod_lt _ (by norm_num))

theorem initLoop_fail (compile : String → Except JsError Regex)
    (w : String → Regex) (t : String) (ps1 ps2 : List String) (bad : String)
    (e : JsError) (hbad : compile bad = .error e)
    (hps1 : ∀ p ∈ ps1, compile p = .ok (w p)) :
    ∀ (pre : List (String × List String)) (post : List (String × List String))
      (st : UtilsState),
      (∀ q ∈ pre, ∀ p ∈ q.2, compile p = .ok (w p)) →
      (pre.map Prod.fst).Nodup → t ∉ pre.map Prod.fst →
      (initLoop compile (pre ++ (t, ps1 ++ bad :: ps2) :: post) st).2 = .error e ∧
      jsGet ((initLoop compile (pre ++ (t, ps1 ++ bad :: ps2) :: post) st).1).exemptionLists t =
        some (ps1.map w) ∧
      (∀ q ∈ pre,
        jsGet ((initLoop compile (pre ++ (t, ps1 ++ bad :: ps2) :: post) st).1).exemptionLists q.1 =
          some (q.2.map w)) ∧
      (∀ k2, k2 ∉ pre.map Prod.fst → k2 ≠ t →
        jsGet ((initLoop compile (pre ++ (t, ps1 ++ bad :: ps2) :: post) st).1).exemptionLists k2 =
          jsGet st.exemptionLists k2) := by
  intro pre
  induction pre with
  | nil =>
    intro post st _ _ _
    have hcp := compilePatterns_fail compile w bad e ps2 hbad ps1 [] hps1
    simp only [List.nil_append, initLoop, hcp]
    refine ⟨?_, ?_, ?_, ?_⟩
    · simp
    · simpa using jsGet_jsSet_self st.exemptionLists t (ps1.map w)
    · intro q hq; simp at hq
    · intro k2 _ hk2
      exact jsGet_jsSet_ne _ _ _ _ (fun h => hk2 h.symm)
  | cons q pre ih =>
    intro post st hpre hnodup ht
    obtain ⟨qn, qps⟩ := q
    have hq : ∀ p ∈ qps, compile p = .ok (w p) := hpre (qn, qps) (by simp)
    have hqpre : qn ∉ pre.map Prod.fst := by
      simp only [List.map_cons, List.nodup_cons] at hnodup
      exact hnodup.1
    have hqt : qn ≠ t := by
      simp only [List.map_cons, List.mem_cons] at ht
      exact fun h => ht (Or.inl h.symm)
    have hnodup2 : (pre.map Prod.fst).Nodup := by
      simp only [List.map_cons, List.nodup_cons] at hnodup
      exact hnodup.2
    have ht2 : t ∉ pre.map Prod.fst := by
      simp only [List.map_cons, List.mem_cons] at ht
      exact fun h => ht (Or.inr h)
    simp only [List.cons_append, initLoop, List.append_eq,
      compilePatterns_ok compile w qps [] hq, List.nil_append]
    obtain ⟨h1, h2, h3, h4⟩ :=
      ih post { st with exemptionLists := jsSet st.exemptionLists qn (qps.map w) }
        (fun r hr => hpre r (by simp [hr])) hnodup2 ht2
    refine ⟨h1, h2, ?_, ?_⟩
    · intro r hr
      rcases List.mem_cons.mp hr with hr1 | hr2
      · subst hr1
        rw [h4 qn hqpre hqt]
        exact jsGet_jsSet_self _ _ _
      · exact h3 r hr2
    · intro k2 hk2 hk2t
      have hk2q : k2 ≠ qn := by
        simp only [List.map_cons, List.mem_cons] at hk2
        exact fun h => hk2 (Or.inl h)
      have hk2pre : k2 ∉ pre.map Prod.fst := by
        simp only [List.map_cons, List.mem_cons] at hk2
        exact fun h => hk2 (Or.inr h)
      rw [h4 k2 hk2pre hk2t]
      exact jsGet_jsSet_ne _ _ _ _ (fun h => hk2q h.symm)

/-! Claim theorems. -/

/-- C1 counterexample: for the feature name "g", which was never
configured (the exemption mapping is empty), shouldExemptUrl does not
return false — the for-of loop over the undefined entry throws a
TypeError, refuting the claim that it returns false and never throws. -/
theorem C1_counterexample :
    shouldExemptUrl (fun _ _ => false) [] "g" "https://example.com" =
      .error JsError.typeError := rfl

/-- C1 (amended): for every feature name absent from the exemption
mapping, shouldExemptUrl throws a TypeError for every URL (it never
returns, truthfully or not); the no-throw unknown-feature behaviour holds
one level up, in shouldExemptMethod, whose membership guard returns false
without calling shouldExemptUrl. -/
theorem C1_unknown_feature_throws (test : Regex → String → Bool)
    (stack : Except JsError (List String))
    (matchLine : String → Except JsError (Option String))
    (lists : List (String × List Regex)) (type url : String)
    (h : jsGet lists type = none) :
    shouldExemptUrl test lists type url = .error JsError.typeError ∧
    shouldExemptMethod test stack matchLine lists type = false := by
  constructor
  · simp [shouldExemptUrl, h]
  · simp [shouldExemptMethod, h]

/-- C1 witness: instantiates the amended claim at an unconfigured feature
name "g" against a state configuring only "f". -/
theorem C1_witness :
    shouldExemptUrl (fun _ _ => false) [("f", [Regex.mk "p"])] "g" "https://u" =
      .error JsError.typeError ∧
    shouldExemptMethod (fun _ _ => false) (.ok []) (fun _ => .ok none)
      [("f", [Regex.mk "p"])] "g" = false :=
  C1_unknown_feature_throws (fun _ _ => false) (.ok []) (fun _ => .ok none)
    [("f", [Regex.mk "p"])] "g" "https://u" (by decide)

/-- C2 counterexample: configure feature "f" with one pattern, then
re-initialise with an empty mapping.  The claim says "f" now behaves as
never configured, so shouldExemptMethod must answer false as it does on a
fresh state; instead the stale compiled pattern survives and the answer
is true. -/
theorem C2_counterexample :
    shouldExemptMethod (fun _ _ => true) (.ok ["line"])
      (fun _ => .ok (some "https://broken.example/lib.js"))
      ((initStringExemptionLists (fun s => .ok (Regex.mk s))
        (InitArgs.mk false [])
        ((initStringExemptionLists (fun s => .ok (Regex.mk s))
          (InitArgs.mk false [("f", ["p"])])
          (UtilsState.mk [] false)).1)).1).exemptionLists "f" = true ∧
    shouldExemptMethod (fun _ _ => true) (.ok ["line"])
      (fun _ => .ok (some "https://broken.example/lib.js")) [] "f" = false := by
  constructor
  · rfl
  · rfl

/-- C2 (amended): initStringExemptionLists overwrites the entry of every
feature named in the new mapping but deletes nothing: a feature absent
from the new mapping keeps exactly the configuration it had before the
call, so re-initialisation is per-key overwrite, not full replacement. -/
theorem C2_reinit_keeps_omitted_features (compile : String → Except JsError Regex)
    (args : InitArgs) (st : UtilsState) (t : String)
    (h : ∀ e ∈ args.stringExemptionLists, e.1 ≠ t) :
    jsGet ((initStringExemptionLists compile args st).1).exemptionLists t =
      jsGet st.exemptionLists t :=
  initLoop_get_ne compile t args.stringExemptionLists
    { st with debug := args.debug } h

/-- C2 witness: re-initialising with a mapping that only names "h" leaves
the earlier configuration of "f" in place. -/
theorem C2_witness :
    jsGet ((initStringExemptionLists (fun s => .ok (Regex.mk s))
        (InitArgs.mk true [("h", ["q"])])
        (UtilsState.mk [("f", [Regex.mk "p"])] false)).1).exemptionLists "f" =
      jsGet [("f", [Regex.mk "p"])] "f" :=
  C2_reinit_keeps_omitted_features (fun s => .ok (Regex.mk s))
    (InitArgs.mk true [("h", ["q"])]) (UtilsState.mk [("f", [Regex.mk "p"])] false)
    "f" (by decide)

/-- C3: for a key of n characters and a callback that never returns the
STOP sentinel (JS null), iterateDataKey invokes the callback exactly
9 * n times (nine per character, for bit positions 8 down to 0); and for
a callback that returns STOP precisely on its k-th invocation (with
1 <= k <= 9 * n), exactly k invocations happen in total — the STOP halts
both the inner bit loop and the outer character loop. -/
theorem C3_iterateDataKey_invocation_count :
    (∀ (σ : Type) (f : σ → Int → Nat → σ × Option Unit) (key : List Nat) (s : σ),
      (∀ t i b, (f t i b).2 = some ()) →
      (iterateDataKey key f s).2 = 9 * key.length) ∧
    (∀ (g : Nat → Option Unit) (key : List Nat) (k : Nat),
      (∀ m, 0 < m → m < k → g m = some ()) → g k = none →
      1 ≤ k → k ≤ 9 * key.length →
      (iterateDataKey key (fun c _ _ => (c + 1, g (c + 1))) 0).2 = k) := by
  constructor
  · intro σ f key s hf
    cases key with
    | nil => rfl
    | cons c rest =>
      show (runKey f (c :: rest) s 0 (c : Int)).2 = 9 * (c :: rest).length
      rw [runKey_count_noStop f hf]
      omega
  · intro g key k hg1 hg2 hk1 hk9
    cases key with
    | nil => simp at hk9; omega
    | cons c rest =>
      show (runKey (fun c2 _ _ => (c2 + 1, g (c2 + 1))) (c :: rest) 0 0 (c : Int)).2 = k
      rw [runKey_count_ordinal g k hg1 hg2 (c :: rest) 0 (c : Int) (by omega)]
      omega

/-- C3 witness: on the two-character key "ab" (code units 97, 98) a
never-stopping callback is invoked 18 times; a callback stopping on its
5th invocation yields exactly 5, and one stopping on its 12th invocation
(inside the second character's bit loop) yields exactly 12. -/
theorem C3_witness :
    (iterateDataKey [97, 98] (fun (_ : Unit) _ _ => ((), some ())) ()).2 =
      9 * [97, 98].length ∧
    (iterateDataKey [97, 98]
      (fun c _ _ => (c + 1, if c + 1 = 5 then none else some ())) 0).2 = 5 ∧
    (iterateDataKey [97, 98]
      (fun c _ _ => (c + 1, if c + 1 = 12 then none else some ())) 0).2 = 12 := by
  refine ⟨?_, ?_, ?_⟩
  · exact C3_iterateDataKey_invocation_count.1 Unit _ [97, 98] ()
      (fun _ _ _ => rfl)
  · exact C3_iterateDataKey_invocation_count.2
      (fun m => if m = 5 then none else some ()) [97, 98] 5
      (fun m h1 h2 => by simp only []; rw [if_neg (by omega)])
      (by decide) (by decide) (by decide)
  · exact C3_iterateDataKey_invocation_count.2
      (fun m => if m = 12 then none else some ()) [97, 98] 12
      (fun m h1 h2 => by simp only []; rw [if_neg (by omega)])
      (by decide) (by decide) (by decide)

/-- C4 counterexample: at v = 3 the embedded nextRandom yields 2147483647
(the ECMAScript 32-bit computation), while the 63-bit-wide formula claimed
by the spec yields 1, refuting the claimed equality. -/
theorem C4_counterexample :
    nextRandom 3 = 2147483647 ∧ nextRandomSpec63 3 = 1 ∧
    nextRandom 3 ≠ (nextRandomSpec63 3 : Int) := by
  refine ⟨by decide, by decide, by decide⟩

/-- C4 (amended): for every unsigned integer v below 2^63, nextRandom v
is non-negative and equals the absolute value of the SIGNED 32-BIT
computation (the operand reduced modulo 2^32, shift counts 62, 61 and 63
reduced modulo 32 to 30, 29 and 31, and the mask expression evaluating to
0xC0000000, bits 30-31), as captured by nextRandomArith32; the function
stays total and deterministic on that domain, but the arithmetic is
32-bit, not the claimed 63-bit. -/
theorem C4_nextRandom_is_32bit (v : Nat) (_h : v < 2 ^ 63) :
    0 ≤ nextRandom (v : Int) ∧ nextRandom (v : Int) = (nextRandomArith32 v : Int) := by
  constructor
  · exact Int.natCast_nonneg _
  · exact nextRandom_eq_arith v

/-- C4 witness: the amended characterisation instantiated at v = 5. -/
theorem C4_witness :
    0 ≤ nextRandom ((5 : Nat) : Int) ∧
    nextRandom ((5 : Nat) : Int) = (nextRandomArith32 5 : Int) :=
  C4_nextRandom_is_32bit 5 (by decide)

/-- C5: for a configured feature with at least one pattern, a failure
while capturing the call stack, or a failure raised while scanning and
parsing the captured lines, never propagates out of shouldExemptMethod:
the function returns false. -/
theorem C5_stack_failure_returns_false (test : Regex → String → Bool)
    (stack : Except JsError (List String))
    (matchLine : String → Except JsError (Option String))
    (lists : List (String × List Regex)) (type : String) (l : List Regex)
    (hl : jsGet lists type = some l) (hne : l ≠ []) :
    (∀ e : JsError, stack = .error e →
      shouldExemptMethod test stack matchLine lists type = false) ∧
    (∀ (lines : List String) (e : JsError), stack = .ok lines →
      scanLines test lists type matchLine lines [] = .error e →
      shouldExemptMethod test stack matchLine lists type = false) := by
  have hlen : ¬ l.length = 0 := by simpa using hne
  constructor
  · intro e he
    subst he
    simp [shouldExemptMethod, hl, hlen]
  · intro lines e hs hscan
    subst hs
    simp [shouldExemptMethod, hl, hlen, hscan]

/-- C5 witness: with feature "f" configured with one pattern, a failed
stack capture yields false, and a parse failure on the first stack line
also yields false. -/
theorem C5_witness :
    shouldExemptMethod (fun _ _ => true) (.error JsError.typeError)
      (fun _ => .ok none) [("f", [Regex.mk "p"])] "f" = false ∧
    shouldExemptMethod (fun _ _ => true) (.ok ["line"])
      (fun _ => .error (JsError.generic "parse")) [("f", [Regex.mk "p"])] "f" = false := by
  constructor
  · exact (C5_stack_failure_returns_false (fun _ _ => true)
      (.error JsError.typeError) (fun _ => .ok none) [("f", [Regex.mk "p"])] "f"
      [Regex.mk "p"] (by decide) (by decide)).1 JsError.typeError rfl
  · exact (C5_stack_failure_returns_false (fun _ _ => true) (.ok ["line"])
      (fun _ => .error (JsError.generic "parse")) [("f", [Regex.mk "p"])] "f"
      [Regex.mk "p"] (by decide) (by decide)).2 ["line"] (JsError.generic "parse")
      rfl rfl

/-- C6: the DDGProxy output handler routes every invocation on the
exemption check alone: when shouldExemptMethod answers true the result is
exactly the native callable's, and the handler's entire output is
independent of the substitute (it is not invoked); when it answers false
the result is exactly the substitute's, and the output is independent of
the native callable. -/
theorem C6_outputHandler_routing {α σ ρ : Type} (test : Regex → String → Bool)
    (stack : Except JsError (List String))
    (matchLine : String → Except JsError (Option String))
    (lists : List (String × List Regex)) (debug : Bool)
    (camel property docHref rawStack argsStr : String)
    (native substitute : α → σ → σ × ρ) (args : α) (s : σ) :
    (shouldExemptMethod test stack matchLine lists camel = true →
      (outputHandler test stack matchLine lists debug camel property docHref
        rawStack argsStr native substitute args s).1 = native args s ∧
      ∀ substitute2 : α → σ → σ × ρ,
        outputHandler test stack matchLine lists debug camel property docHref
          rawStack argsStr native substitute2 args s =
        outputHandler test stack matchLine lists debug camel property docHref
          rawStack argsStr native substitute args s) ∧
    (shouldExemptMethod test stack matchLine lists camel = false →
      (outputHandler test stack matchLine lists debug camel property docHref
        rawStack argsStr native substitute args s).1 = substitute args s ∧
      ∀ native2 : α → σ → σ × ρ,
        outputHandler test stack matchLine lists debug camel property docHref
          rawStack argsStr native2 substitute args s =
        outputHandler test stack matchLine lists debug camel property docHref
          rawStack argsStr native substitute args s) := by
  constructor
  · intro h
    constructor
    · simp [outputHandler, h]
    · intro substitute2
      simp [outputHandler, h]
  · intro h
    constructor
    · simp [outputHandler, h]
    · intro native2
      simp [outputHandler, h]

/-- C6 witness: with feature "f" configured and an exempting stack the
handler returns the native callable's state and result; with an empty
configuration the same handler returns the substitute's. -/
theorem C6_witness :
    (outputHandler (fun _ _ => true) (.ok ["line"]) (fun _ => .ok (some "u"))
      [("f", [Regex.mk "p"])] false "f" "k" "d" "st" "a"
      (fun (a : Nat) (s : Nat) => (s + 1, a + 40)) (fun _ s => (s, 7)) 3 0).1 =
      (1, 43) ∧
    (outputHandler (fun _ _ => true) (.ok ["line"]) (fun _ => .ok (some "u"))
      [] false "f" "k" "d" "st" "a"
      (fun (a : Nat) (s : Nat) => (s + 1, a + 40)) (fun _ s => (s, 7)) 3 0).1 =
      (0, 7) := by
  constructor
  · have h := (C6_outputHandler_routing (fun _ _ => true) (.ok ["line"])
      (fun _ => .ok (some "u")) [("f", [Regex.mk "p"])] false "f" "k" "d" "st" "a"
      (fun (a : Nat) (s : Nat) => (s + 1, a + 40)) (fun _ s => (s, 7)) 3 0).1
      (by decide)
    rw [h.1]
  · have h := (C6_outputHandler_routing (fun _ _ => true) (.ok ["line"])
      (fun _ => .ok (some "u")) [] false "f" "k" "d" "st" "a"
      (fun (a : Nat) (s : Nat) => (s + 1, a + 40)) (fun _ s => (s, 7)) 3 0).2
      (by decide)
    rw [h.1]

/-- C7: getDataKeySync is deterministic — two calls on the same
(sessionSecret, domainKey, input) triple give the identical string — and
the result is a 64-character string of lowercase hexadecimal digits
whenever the underlying HMAC yields the 8 thirty-two-bit words of a
256-bit digest.  The HMAC itself is vendored sjcl code outside the
provided sources and enters as the parameter `hmac`. -/
theorem C7_getDataKeySync_deterministic_hex (hmac : String → Int → List Nat)
    (sessionKey domainKey : String) (inputData : Int)
    (h8 : (hmac (sessionKey ++ domainKey) inputData).length = 8) :
    getDataKeySync hmac sessionKey domainKey inputData =
      getDataKeySync hmac sessionKey domainKey inputData ∧
    (getDataKeySync hmac sessionKey domainKey inputData).length = 64 ∧
    ∀ c ∈ (getDataKeySync hmac sessionKey domainKey inputData).data,
      c ∈ hexDigitChars := by
  refine ⟨rfl, ?_, ?_⟩
  · show (hexFromBits (hmac (sessionKey ++ domainKey) inputData)).length = 64
    rw [hexFromBits_length, h8]
  · intro c hc
    exact hexFromBits_mem (hmac (sessionKey ++ domainKey) inputData) c hc

/-- C7 witness: instantiated with the all-zero 256-bit digest, the digest
string is 64 lowercase hex characters and the call is self-identical. -/
theorem C7_witness :
    getDataKeySync (fun _ _ => [0, 0, 0, 0, 0, 0, 0, 0]) "s" "d" 1 =
      getDataKeySync (fun _ _ => [0, 0, 0, 0, 0, 0, 0, 0]) "s" "d" 1 ∧
    (getDataKeySync (fun _ _ => [0, 0, 0, 0, 0, 0, 0, 0]) "s" "d" 1).length = 64 ∧
    ∀ c ∈ (getDataKeySync (fun _ _ => [0, 0, 0, 0, 0, 0, 0, 0]) "s" "d" 1).data,
      c ∈ hexDigitChars :=
  C7_getDataKeySync_deterministic_hex (fun _ _ => [0, 0, 0, 0, 0, 0, 0, 0])
    "s" "d" 1 (by decide)

/-- C8: overrideProperty treats only the strict value undefined as the
missing marker.  For any other original value — null included — it
attempts the getter installation (which, when defineProperty succeeds,
leaves a getter returning targetValue on the object) and returns the
original value; it also returns the original value regardless of
installation success; and only an undefined original value skips the
installation, leaving the object untouched. -/
theorem C8_overrideProperty_undefined_only (configurableOk : Bool)
    (name : String) (obj : List (String × Descriptor))
    (origValue targetValue : JSValue) :
    (origValue ≠ JSValue.undefined → configurableOk = true →
      jsGet (overrideProperty configurableOk name obj origValue targetValue).1 name =
        some (Descriptor.getter targetValue) ∧
      (overrideProperty configurableOk name obj origValue targetValue).2 = origValue) ∧
    (overrideProperty configurableOk name obj origValue targetValue).2 = origValue ∧
    (origValue = JSValue.undefined →
      overrideProperty configurableOk name obj origValue targetValue =
        (obj, origValue)) := by
  refine ⟨?_, ?_, ?_⟩
  · intro hne hcfg
    subst hcfg
    constructor
    · simp [overrideProperty, hne, defineProperty, jsGet_jsSet_self]
    · simp [overrideProperty, hne, defineProperty]
  · by_cases hu : origValue = JSValue.undefined
    · simp [overrideProperty, hu]
    · cases configurableOk with
      | true => simp [overrideProperty, hu, defineProperty]
      | false => simp [overrideProperty, hu, defineProperty]
  · intro hu
    simp [overrideProperty, hu]

/-- C8 witness: with a null original value the getter is installed and
null is returned; with an undefined original value nothing happens. -/
theorem C8_witness :
    (jsGet (overrideProperty true "x" [] JSValue.null (JSValue.num 5)).1 "x" =
      some (Descriptor.getter (JSValue.num 5)) ∧
    (overrideProperty true "x" [] JSValue.null (JSValue.num 5)).2 = JSValue.null) ∧
    overrideProperty true "x" [] JSValue.undefined (JSValue.num 5) =
      ([], JSValue.undefined) := by
  constructor
  · exact (C8_overrideProperty_undefined_only true "x" [] JSValue.null
      (JSValue.num 5)).1 (by decide) rfl
  · exact (C8_overrideProperty_undefined_only true "x" [] JSValue.undefined
      (JSValue.num 5)).2.2 rfl

/-- C9: iterateDataKey on the empty string key performs zero callback
invocations and returns normally with the callback state untouched, for
every callback (charCodeAt(0) yields NaN there, but the loop body never
runs, so no exception arises). -/
theorem C9_iterateDataKey_empty {σ : Type}
    (f : σ → Int → Nat → σ × Option Unit) (s : σ) :
    iterateDataKey [] f s = (s, 0) := rfl

/-- C10: initStringExemptionLists is not atomic on error.  If some
pattern fails to compile, the compilation error propagates to the caller,
yet every feature fully processed before the failing entry keeps its
complete compiled list in the state, and the failing feature itself keeps
the patterns compiled before the invalid one. -/
theorem C10_init_not_atomic (compile : String → Except JsError Regex)
    (w : String → Regex) (pre post : List (String × List String)) (t : String)
    (ps1 ps2 : List String) (bad : String) (e : JsError) (st : UtilsState)
    (dbg : Bool)
    (hpre : ∀ q ∈ pre, ∀ p ∈ q.2, compile p = .ok (w p))
    (hps1 : ∀ p ∈ ps1, compile p = .ok (w p))
    (hbad : compile bad = .error e)
    (hnodup : (pre.map Prod.fst).Nodup)
    (ht : t ∉ pre.map Prod.fst) :
    (initStringExemptionLists compile
      (InitArgs.mk dbg (pre ++ (t, ps1 ++ bad :: ps2) :: post)) st).2 = .error e ∧
    jsGet ((initStringExemptionLists compile
      (InitArgs.mk dbg (pre ++ (t, ps1 ++ bad :: ps2) :: post)) st).1).exemptionLists t =
        some (ps1.map w) ∧
    ∀ q ∈ pre,
      jsGet ((initStringExemptionLists compile
        (InitArgs.mk dbg (pre ++ (t, ps1 ++ bad :: ps2) :: post)) st).1).exemptionLists q.1 =
          some (q.2.map w) := by
  obtain ⟨h1, h2, h3, _⟩ :=
    initLoop_fail compile w t ps1 ps2 bad e hbad hps1 pre post
      { st with debug := dbg } hpre hnodup ht
  exact ⟨h1, h2, h3⟩

/-- C10 witness: feature "a" compiles fully, then feature "f" fails on
its second pattern; the error escapes while "a" keeps its full list and
"f" keeps the one pattern compiled before the invalid one; the feature
"b" after the failure point is never reached. -/
theorem C10_witness :
    (initStringExemptionLists
      (fun s => if s = "bad" then .error (JsError.syntaxError "bad")
        else .ok (Regex.mk s))
      (InitArgs.mk true [("a", ["x"]), ("f", ["y", "bad", "z"]), ("b", ["q"])])
      (UtilsState.mk [] false)).2 = .error (JsError.syntaxError "bad") ∧
    jsGet ((initStringExemptionLists
      (fun s => if s = "bad" then .error (JsError.syntaxError "bad")
        else .ok (Regex.mk s))
      (InitArgs.mk true [("a", ["x"]), ("f", ["y", "bad", "z"]), ("b", ["q"])])
      (UtilsState.mk [] false)).1).exemptionLists "f" = some [Regex.mk "y"] ∧
    jsGet ((initStringExemptionLists
      (fun s => if s = "bad" then .error (JsError.syntaxError "bad")
        else .ok (Regex.mk s))
      (InitArgs.mk true [("a", ["x"]), ("f", ["y", "bad", "z"]), ("b", ["q"])])
      (UtilsState.mk [] false)).1).exemptionLists "a" = some [Regex.mk "x"] := by
  obtain ⟨h1, h2, h3⟩ :=
    C10_init_not_atomic
      (fun s => if s = "bad" then .error (JsError.syntaxError "bad")
        else .ok (Regex.mk s))
      Regex.mk [("a", ["x"])] [("b", ["q"])] "f" ["y"] ["z"] "bad"
      (JsError.syntaxError "bad") (UtilsState.mk [] false) true
      (by intro q hq p hp; simp at hq; subst hq; simp at hp; subst hp; rfl)
      (by intro p hp; simp at hp; subst hp; rfl)
      rfl (by simp) (by simp)
  exact ⟨h1, h2, h3 ("a", ["x"]) (by simp)⟩
